import Mathlib

/-!
Shallow embedding of the adaptive memcpy dispatcher of
`utils/memcpy-bench/memcpy-bench.cpp` (the structs `VariantWithStatistics`
and `MultipleVariantsWithStatistics`, the global `variants` object, and the
entry point `memcpy_selftuned`).

Modelling conventions:
* `size_t` values are natural numbers; every arithmetic update that the C++
  performs on a `size_t` is reduced `% 2^64` (named `U64`).  The measured
  elapsed time is a `UInt32` difference of two `rdtsc` reads; it enters the
  model as an input (an oracle), since the hardware counter is
  nondeterministic.
* Memory itself (the buffers being copied) is outside the model: the copy
  kernels are opaque; we record *which* kernel a step invokes, and what it
  does to the dispatcher state.
* `score()` computes with IEEE doubles.  We model it with exact real
  arithmetic; the cases where the C++ computation yields NaN or +inf
  (`bytes == 0` or `count == 0`, where a comparison `score < best` is always
  false) are modelled by `Option`: `none` never wins a comparison in the
  selection loop, exactly like NaN/+inf in the source.
-/

namespace MemcpyBench

/-- 2^64, the modulus of `size_t` arithmetic. -/
def U64 : ℕ := 2 ^ 64

/-- The copy kernels stored in the registry (`memcpy_type` function pointers
in the source).  Each constructor names one of the C++ functions that appear
in the `variants` initializer list of `MultipleVariantsWithStatistics`
(`glibc_` stands in for the glibc-internal double-underscore prefix of
`__memcpy_avx_unaligned`, `__memcpy_avx_unaligned_erms`, `__memcpy_ssse3`
and `__memcpy_ssse3_back`, which ordinary Lean names cannot carry), plus the
libc `memcpy` used to initialize `selected_variant`. -/
inductive KernelFn where
  | memcpy
  | memcpy_erms
  | memcpy_fast_sse
  | memcpy_fast_avx
  | glibc_memcpy_avx_unaligned
  | glibc_memcpy_avx_unaligned_erms
  | glibc_memcpy_ssse3
  | glibc_memcpy_ssse3_back
  | memcpy_trivial
  | memcpy_medium_avx_forward2
  | memcpySSE2
  | memcpySSE2Unrolled2
  | memcpySSE2Unrolled4
  | memcpySSE2Unrolled8
  | memcpy_medium_sse_forward
  | memcpy_medium_avx_forward
deriving DecidableEq

/-- One cell of the registry: `struct VariantWithStatistics`.  The atomic
fields `time`, `bytes`, `count`, `kind` are `size_t` accumulators; `func` is
the kernel (a function pointer in the source, modelled by its identity). -/
structure VariantWithStatistics where
  func : KernelFn
  time : ℕ
  bytes : ℕ
  count : ℕ
  kind : ℕ
deriving DecidableEq

/-- `VariantWithStatistics::smooth()`: each statistics field is replaced by
`1 + value / 2` (integer division).  No `% U64` reduction is needed: for any
`size_t` input `v < 2^64` we have `1 + v / 2 < 2^64`, so the C++ addition
cannot wrap. -/
def smooth (v : VariantWithStatistics) : VariantWithStatistics :=
  { v with
    time := 1 + v.time / 2
    bytes := 1 + v.bytes / 2
    count := 1 + v.count / 2 }

/-- The statistics update performed inside
`MultipleVariantsWithStatistics::explore` (lines 1154-1159): only if the
measured `time` is strictly less than `size` are the three accumulators
updated (`++count; bytes += size; time += time;`, all on `size_t`, hence
mod `2^64`). -/
def record (v : VariantWithStatistics) (time size : ℕ) : VariantWithStatistics :=
  if time < size then
    { v with
      count := (v.count + 1) % U64
      bytes := (v.bytes + size) % U64
      time := (v.time + time) % U64 }
  else
    v

/-- The condition under which `VariantWithStatistics::score()` is a real
number: `mean = time/bytes` needs `bytes ≠ 0` and `sigma = mean/sqrt(count)`
needs `count ≠ 0`; otherwise the double computation produces NaN or +inf. -/
def scoreDefined (v : VariantWithStatistics) : Prop :=
  v.bytes ≠ 0 ∧ v.count ≠ 0

instance (v : VariantWithStatistics) : Decidable (scoreDefined v) := by
  unfold scoreDefined; infer_instance

/-- The value of `VariantWithStatistics::score()` when it is defined:
`mean + mean / sqrt(count)` with `mean = time / bytes`.  Exact real
arithmetic stands in for the double arithmetic of the source. -/
noncomputable def scoreVal (v : VariantWithStatistics) : ℝ :=
  (v.time : ℝ) / (v.bytes : ℝ) + ((v.time : ℝ) / (v.bytes : ℝ)) / Real.sqrt (v.count : ℝ)

/-- `VariantWithStatistics::score()`.  `none` models the NaN/+inf outcomes,
which never satisfy a `<` comparison in the selection loop. -/
noncomputable def score (v : VariantWithStatistics) : Option ℝ :=
  if v.bytes = 0 ∨ v.count = 0 then none else some (scoreVal v)

/-- `probability_distribution_buckets = 256`. -/
def probability_distribution_buckets : ℕ := 256

/-- `num_explorations_before_optimize = 256`. -/
def num_explorations_before_optimize : ℕ := 256

/-- The dispatcher state: `struct MultipleVariantsWithStatistics`
(`num_cells = 16`). -/
structure MultipleVariantsWithStatistics where
  selected_variant : KernelFn
  variants : Fin 16 → VariantWithStatistics
  count : ℕ
  exploration_count : ℕ
  exploration_probability_threshold : ℕ

/-- The registry initializer list (lines 1094-1112): sixteen kernels, each
with its `kind` tag, all statistics fields zero-initialized. -/
def initialVariants : Fin 16 → VariantWithStatistics :=
  ![⟨KernelFn.memcpy, 0, 0, 0, 1⟩,
    ⟨KernelFn.memcpy_erms, 0, 0, 0, 4⟩,
    ⟨KernelFn.memcpy_fast_sse, 0, 0, 0, 10⟩,
    ⟨KernelFn.memcpy_fast_avx, 0, 0, 0, 11⟩,
    ⟨KernelFn.glibc_memcpy_avx_unaligned, 0, 0, 0, 25⟩,
    ⟨KernelFn.glibc_memcpy_avx_unaligned_erms, 0, 0, 0, 26⟩,
    ⟨KernelFn.glibc_memcpy_ssse3, 0, 0, 0, 23⟩,
    ⟨KernelFn.glibc_memcpy_ssse3_back, 0, 0, 0, 24⟩,
    ⟨KernelFn.memcpy_trivial, 0, 0, 0, 2⟩,
    ⟨KernelFn.memcpy_medium_avx_forward2, 0, 0, 0, 31⟩,
    ⟨KernelFn.memcpySSE2, 0, 0, 0, 6⟩,
    ⟨KernelFn.memcpySSE2Unrolled2, 0, 0, 0, 7⟩,
    ⟨KernelFn.memcpySSE2Unrolled4, 0, 0, 0, 8⟩,
    ⟨KernelFn.memcpySSE2Unrolled8, 0, 0, 0, 9⟩,
    ⟨KernelFn.memcpy_medium_sse_forward, 0, 0, 0, 32⟩,
    ⟨KernelFn.memcpy_medium_avx_forward, 0, 0, 0, 33⟩]

/-- The global `MultipleVariantsWithStatistics variants;` object at program
start: `selected_variant{memcpy}`, all counters zero,
`exploration_probability_threshold = 0`. -/
def initialState : MultipleVariantsWithStatistics :=
  { selected_variant := KernelFn.memcpy
    variants := initialVariants
    count := 0
    exploration_count := 0
    exploration_probability_threshold := 0 }

/-- The pseudo-random cell index of `explore` (lines 1143-1147): the integer
hash `hash *= 0xff51afd7ed558ccd; hash ^= hash >> 33` applied to the given
`exploration_count` value, reduced modulo `num_cells = 16`.  The `size_t`
multiplication wraps mod `2^64`; the xor/shift stays below `2^64`. -/
def hashIndex (ec : ℕ) : Fin 16 :=
  ⟨(((ec * 0xff51afd7ed558ccd) % U64) ^^^ (((ec * 0xff51afd7ed558ccd) % U64) >>> 33)) % 16,
    Nat.mod_lt _ (by norm_num)⟩

/-- The threshold recomputation inside the reoptimization block
(lines 1163-1171):
`exploration_probability = 1 - threshold/256`, then `/= 1.5`, then
`threshold := min(255, size_t(256 * (1 - exploration_probability)))`.
The double arithmetic is modelled exactly over `ℚ`; for every reachable
threshold (`t ≤ 255`) the double computation is exact or the value is more
than 1/3 away from an integer, so the rational floor agrees with the C++
double-to-integer truncation. -/
def thresholdUpdate (t : ℕ) : ℕ :=
  let exploration_probability : ℚ := (1 - (t : ℚ) / probability_distribution_buckets) / 1.5
  min (probability_distribution_buckets - 1)
    (Int.toNat ⌊(probability_distribution_buckets : ℚ) * (1 - exploration_probability)⌋)

/-- One comparison of the selection loop (the body of lines 1178-1188 minus
the smoothing): given the running `(best_variant, best_score)` accumulator,
compare `variants[i].score()` against `best_score`.  When the score is NaN
or +inf (`none`), the C++ comparison `score < best_score` is false and the
accumulator is kept. -/
noncomputable def selStep (vs : Fin 16 → VariantWithStatistics)
    (a : Fin 16 × ℝ) (i : Fin 16) : Fin 16 × ℝ :=
  match score (vs i) with
  | none => a
  | some x => if x < a.2 then (i, x) else a

/-- One full iteration of the selection loop (lines 1178-1188): read
`variants[i].score()`, then `variants[i].smooth()`, then update the running
best.  The score is read from the array *before* entry `i` is decayed. -/
noncomputable def optimizeStep
    (acc : (Fin 16 → VariantWithStatistics) × Fin 16 × ℝ) (i : Fin 16) :
    (Fin 16 → VariantWithStatistics) × Fin 16 × ℝ :=
  (Function.update acc.1 i (smooth (acc.1 i)), selStep acc.1 acc.2 i)

/-- The selection loop `for (i = 0; i < num_cells; ++i)` of the
reoptimization block, started from `best_variant = 0`, `best_score = 1e9`.
Returns the decayed registry together with the final
`(best_variant, best_score)`. -/
noncomputable def optimizeLoop (vs : Fin 16 → VariantWithStatistics) :
    (Fin 16 → VariantWithStatistics) × Fin 16 × ℝ :=
  (List.finRange 16).foldl optimizeStep (vs, (0 : Fin 16), (10 : ℝ) ^ 9)

/-- The index chosen by the selection loop. -/
noncomputable def bestIndex (vs : Fin 16 → VariantWithStatistics) : Fin 16 :=
  (optimizeLoop vs).2.1

/-- The reoptimization block of `explore` (lines 1161-1192, body of the
`current_exploration_count == num_explorations_before_optimize` branch):
recompute the exploration probability threshold, reset `exploration_count`
to 0, run the selection loop (which also decays every tracker), and publish
`variants[best_variant].func` as `selected_variant`.  (The `std::cerr`
diagnostic print of the chosen kind is a pure observability effect and is
not modelled.) -/
noncomputable def reoptimize (s : MultipleVariantsWithStatistics) :
    MultipleVariantsWithStatistics :=
  let r := optimizeLoop s.variants
  { s with
    exploration_probability_threshold := thresholdUpdate s.exploration_probability_threshold
    exploration_count := 0
    variants := r.1
    selected_variant := (r.1 r.2.1).func }

/-- The registry contents right after the `record` call of an `explore` step
(lines 1147-1159): the cell picked by hashing the pre-increment
`exploration_count` receives the measured sample, every other cell is
untouched. -/
def postRecordVariants (s : MultipleVariantsWithStatistics) (size elapsed : ℕ) :
    Fin 16 → VariantWithStatistics :=
  Function.update s.variants (hashIndex s.exploration_count)
    (record (s.variants (hashIndex s.exploration_count)) elapsed size)

/-- `MultipleVariantsWithStatistics::explore` (lines 1139-1195).
`current_exploration_count = exploration_count++` yields the *old* counter
value; it is hashed to pick the cell, the chosen kernel is invoked and
timed (`elapsed` is the `UInt32` difference of the two `rdtsc` reads,
supplied as an oracle input), the sample is recorded, and if the old counter
value equals `num_explorations_before_optimize` the reoptimization block
runs.  Returns the new state and the kernel that was invoked. -/
noncomputable def explore (s : MultipleVariantsWithStatistics) (size elapsed : ℕ) :
    MultipleVariantsWithStatistics × KernelFn :=
  let current_exploration_count := s.exploration_count
  let invoked := (s.variants (hashIndex current_exploration_count)).func
  let s2 : MultipleVariantsWithStatistics :=
    { s with
      exploration_count := (current_exploration_count + 1) % U64
      variants := postRecordVariants s size elapsed }
  (if current_exploration_count = num_explorations_before_optimize then reoptimize s2 else s2,
   invoked)

/-- `MultipleVariantsWithStatistics::call` (lines 1123-1137):
`current_count = count++` yields the old call counter; if
`current_count % probability_distribution_buckets <
exploration_probability_threshold` the call exploits (one load of
`selected_variant`, which is invoked directly), otherwise it explores. -/
noncomputable def call (s : MultipleVariantsWithStatistics) (size elapsed : ℕ) :
    MultipleVariantsWithStatistics × KernelFn :=
  let current_count := s.count
  let s1 : MultipleVariantsWithStatistics := { s with count := (current_count + 1) % U64 }
  if current_count % probability_distribution_buckets < s.exploration_probability_threshold then
    (s1, s.selected_variant)
  else
    explore s1 size elapsed

/-- `memcpy_selftuned` (lines 1202-1297), restricted to its effect on the
dispatcher state: the branches `size <= 16`, `size <= 128` and
`size < 30000` copy with fixed inline SSE paths that never touch the global
`variants` object; only the final `else` invokes `variants.call`.  The
returned flag records whether the adaptive dispatcher was invoked. -/
noncomputable def memcpy_selftuned (s : MultipleVariantsWithStatistics) (size elapsed : ℕ) :
    MultipleVariantsWithStatistics × Bool :=
  if size ≤ 16 then (s, false)
  else if size ≤ 128 then (s, false)
  else if size < 30000 then (s, false)
  else ((call s size elapsed).1, true)

/-- Pure comparison step of the selection loop, specialised to a total
real-valued score vector (the shape `selStep` takes once every score is
defined). -/
noncomputable def gstep (v : Fin 16 → ℝ) (a : Fin 16 × ℝ) (i : Fin 16) : Fin 16 × ℝ :=
  if v i < a.2 then (i, v i) else a

theorem foldl_selStep_congr (vs vs' : Fin 16 → VariantWithStatistics)
    (l : List (Fin 16)) :
    ∀ a : Fin 16 × ℝ, (∀ i ∈ l, vs i = vs' i) →
      l.foldl (selStep vs) a = l.foldl (selStep vs') a := by
  induction l with
  | nil => intro a _; rfl
  | cons i t ih =>
      intro a h
      have hi : vs i = vs' i := h i (List.mem_cons_self i t)
      simp only [List.foldl_cons, selStep, hi]
      exact ih _ fun j hj => h j (List.mem_cons_of_mem _ hj)

theorem foldl_optimizeStep_eq (l : List (Fin 16)) (hnd : l.Nodup) :
    ∀ (vs : Fin 16 → VariantWithStatistics) (a : Fin 16 × ℝ),
      l.foldl optimizeStep (vs, a) =
        ((fun j => if j ∈ l then smooth (vs j) else vs j), l.foldl (selStep vs) a) := by
  induction l with
  | nil => intro vs a; simp
  | cons i t ih =>
      intro vs a
      obtain ⟨hit, hnd'⟩ := List.nodup_cons.mp hnd
      have hit' : ∀ j ∈ t, Function.update vs i (smooth (vs i)) j = vs j := by
        intro j hj
        exact Function.update_noteq (ne_of_mem_of_not_mem hj hit) _ _
      simp only [List.foldl_cons]
      have h1 : optimizeStep (vs, a) i
          = (Function.update vs i (smooth (vs i)), selStep vs a i) := rfl
      rw [h1, ih hnd']
      simp only [Prod.mk.injEq]
      constructor
      · funext j
        by_cases hj : j = i
        · subst hj
          simp [List.mem_cons, Function.update_same, if_neg hit]
        · simp [List.mem_cons, hj, Function.update_noteq hj]
      · exact foldl_selStep_congr _ _ t _ hit'

theorem foldl_selStep_eq_gstep (vs : Fin 16 → VariantWithStatistics)
    (l : List (Fin 16)) :
    ∀ a : Fin 16 × ℝ, (∀ i ∈ l, scoreDefined (vs i)) →
      l.foldl (selStep vs) a = l.foldl (gstep fun j => scoreVal (vs j)) a := by
  induction l with
  | nil => intro a _; rfl
  | cons i t ih =>
      intro a h
      have hi := h i (List.mem_cons_self i t)
      have hsc : score (vs i) = some (scoreVal (vs i)) := by
        rw [score, if_neg (not_or.mpr ⟨hi.1, hi.2⟩)]
      simp only [List.foldl_cons, selStep, gstep, hsc]
      exact ih _ fun j hj => h j (List.mem_cons_of_mem _ hj)

theorem foldl_gstep_spec (v : Fin 16 → ℝ) (l : List (Fin 16)) :
    ∀ (b : Fin 16) (bs : ℝ),
      (l.foldl (gstep v) (b, bs)).2 ≤ bs ∧
      (∀ i ∈ l, (l.foldl (gstep v) (b, bs)).2 ≤ v i) ∧
      (l.foldl (gstep v) (b, bs) = (b, bs) ∧ (∀ i ∈ l, bs ≤ v i) ∨
        ∃ l₁ k l₂, l = l₁ ++ k :: l₂ ∧ (l.foldl (gstep v) (b, bs)).1 = k ∧
          v k = (l.foldl (gstep v) (b, bs)).2 ∧ (l.foldl (gstep v) (b, bs)).2 < bs ∧
          ∀ j ∈ l₁, (l.foldl (gstep v) (b, bs)).2 < v j) := by
  induction l with
  | nil =>
      intro b bs
      exact ⟨le_refl _, by simp, Or.inl ⟨rfl, by simp⟩⟩
  | cons i t ih =>
      intro b bs
      simp only [List.foldl_cons]
      by_cases h : v i < bs
      · rw [show gstep v (b, bs) i = (i, v i) from if_pos h]
        obtain ⟨h1, h2, h3⟩ := ih i (v i)
        refine ⟨h1.trans h.le, ?_, ?_⟩
        · intro j hj
          rcases List.mem_cons.mp hj with rfl | hj
          · exact h1
          · exact h2 j hj
        · rcases h3 with ⟨heq, _⟩ | ⟨t₁, k, t₂, ht, hk, hvk, hlt, hfirst⟩
          · refine Or.inr ⟨[], i, t, by simp, ?_, ?_, ?_, by simp⟩
            · rw [heq]
            · rw [heq]
            · rw [heq]; exact h
          · refine Or.inr ⟨i :: t₁, k, t₂, by simp [ht], hk, hvk, hlt.trans h, ?_⟩
            intro j hj
            rcases List.mem_cons.mp hj with rfl | hj
            · exact hlt
            · exact hfirst j hj
      · rw [show gstep v (b, bs) i = (b, bs) from if_neg h]
        obtain ⟨h1, h2, h3⟩ := ih b bs
        push_neg at h
        refine ⟨h1, ?_, ?_⟩
        · intro j hj
          rcases List.mem_cons.mp hj with rfl | hj
          · exact h1.trans h
          · exact h2 j hj
        · rcases h3 with ⟨heq, hge⟩ | ⟨t₁, k, t₂, ht, hk, hvk, hlt, hfirst⟩
          · refine Or.inl ⟨heq, ?_⟩
            intro j hj
            rcases List.mem_cons.mp hj with rfl | hj
            · exact h
            · exact hge j hj
          · refine Or.inr ⟨i :: t₁, k, t₂, by simp [ht], hk, hvk, hlt, ?_⟩
            intro j hj
            rcases List.mem_cons.mp hj with rfl | hj
            · exact hlt.trans_le h
            · exact hfirst j hj

/-- In a decomposition `finRange 16 = l₁ ++ k :: l₂`, every index below `k`
lies in the prefix `l₁` (the loop visits indices in increasing order). -/
theorem finRange_decomp_lt {l₁ l₂ : List (Fin 16)} {k j : Fin 16}
    (h : List.finRange 16 = l₁ ++ k :: l₂) (hj : j < k) : j ∈ l₁ := by
  have hp : (l₁ ++ k :: l₂).Pairwise (· < ·) := h ▸ List.pairwise_lt_finRange 16
  rw [List.pairwise_append] at hp
  obtain ⟨-, hp2, hp3⟩ := hp
  have hmem : j ∈ l₁ ++ k :: l₂ := h ▸ List.mem_finRange j
  rcases List.mem_append.mp hmem with h1 | h2
  · exact h1
  · rcases List.mem_cons.mp h2 with rfl | h3
    · exact absurd hj (lt_irrefl _)
    · exact absurd hj (not_lt_of_gt ((List.pairwise_cons.mp hp2).1 j h3))

/-- The selection loop decays every registry cell exactly once. -/
theorem optimizeLoop_fst (vs : Fin 16 → VariantWithStatistics) :
    (optimizeLoop vs).1 = fun j => smooth (vs j) := by
  rw [optimizeLoop, foldl_optimizeStep_eq _ (List.nodup_finRange 16)]
  simp [List.mem_finRange]

theorem smooth_func (v : VariantWithStatistics) : (smooth v).func = v.func := rfl

/-- Every field of the dispatcher state after `reoptimize`, in terms of the
pre-reoptimization state. -/
theorem reoptimize_variants (s : MultipleVariantsWithStatistics) :
    (reoptimize s).variants = fun j => smooth (s.variants j) := by
  rw [reoptimize]
  exact optimizeLoop_fst s.variants

/-- The selection loop returns the first-occurrence argmin of the scores it
read, provided every score is defined and at least one is below the `1e9`
initial best. -/
theorem bestIndex_spec (vs : Fin 16 → VariantWithStatistics)
    (hdef : ∀ i, scoreDefined (vs i))
    (hlt : ∃ i, scoreVal (vs i) < (10 : ℝ) ^ 9) :
    (∀ j, scoreVal (vs (bestIndex vs)) ≤ scoreVal (vs j)) ∧
      ∀ j, j < bestIndex vs → scoreVal (vs (bestIndex vs)) < scoreVal (vs j) := by
  have hsnd : (optimizeLoop vs).2
      = (List.finRange 16).foldl (gstep fun j => scoreVal (vs j)) ((0 : Fin 16), (10 : ℝ) ^ 9) := by
    rw [optimizeLoop, foldl_optimizeStep_eq _ (List.nodup_finRange 16),
      foldl_selStep_eq_gstep vs _ _ fun i _ => hdef i]
  obtain ⟨h1, h2, h3⟩ := foldl_gstep_spec (fun j => scoreVal (vs j)) (List.finRange 16)
    (0 : Fin 16) ((10 : ℝ) ^ 9)
  rcases h3 with ⟨_, hge⟩ | ⟨l₁, k, l₂, hdecomp, hk, hvk, _, hfirst⟩
  · obtain ⟨i0, hi0⟩ := hlt
    exact absurd (hge i0 (List.mem_finRange i0)) (not_le.mpr hi0)
  · have hbk : bestIndex vs = k := by
      rw [bestIndex, hsnd]
      exact hk
    constructor
    · intro j
      have h2j := h2 j (List.mem_finRange j)
      rw [hbk, hvk]
      exact h2j
    · intro j hj
      rw [hbk] at hj
      have hmem := finRange_decomp_lt hdecomp hj
      rw [hbk, hvk]
      exact hfirst j hmem

/-- An `explore` step whose pre-increment exploration counter differs from
`num_explorations_before_optimize` does not enter the reoptimization block:
its entire effect is the counter increment and the recorded sample. -/
theorem explore_no_reopt (s : MultipleVariantsWithStatistics) (size elapsed : ℕ)
    (h : s.exploration_count ≠ num_explorations_before_optimize) :
    (explore s size elapsed).1 =
      { s with
        exploration_count := (s.exploration_count + 1) % U64
        variants := postRecordVariants s size elapsed } := by
  rw [explore]
  simp [h]

/-- An `explore` step whose pre-increment exploration counter equals
`num_explorations_before_optimize` runs the reoptimization block on the
post-record state. -/
theorem explore_reopt (s : MultipleVariantsWithStatistics) (size elapsed : ℕ)
    (h : s.exploration_count = num_explorations_before_optimize) :
    (explore s size elapsed).1 =
      reoptimize
        { s with
          exploration_count := (s.exploration_count + 1) % U64
          variants := postRecordVariants s size elapsed } := by
  rw [explore]
  simp [h]

/-- `explore` invokes the kernel of the cell indexed by hashing the
pre-increment exploration counter. -/
theorem explore_invoked (s : MultipleVariantsWithStatistics) (size elapsed : ℕ) :
    (explore s size elapsed).2 = (s.variants (hashIndex s.exploration_count)).func := rfl

/-- Claim C3: the exploit/explore decision of `call` is a deterministic
function of the pre-increment call counter: the call exploits exactly when
`count % probability_distribution_buckets <
exploration_probability_threshold`, and explores otherwise.  The threshold
starts at 0 (so every call before the first reoptimization explores), and
the scheduling step itself never mutates the threshold: outside the
reoptimization block the threshold is unchanged. -/
theorem claim_C3_scheduler_decision (s : MultipleVariantsWithStatistics) (size elapsed : ℕ) :
    (s.count % probability_distribution_buckets < s.exploration_probability_threshold →
      call s size elapsed = ({ s with count := (s.count + 1) % U64 }, s.selected_variant)) ∧
    (¬ s.count % probability_distribution_buckets < s.exploration_probability_threshold →
      call s size elapsed = explore { s with count := (s.count + 1) % U64 } size elapsed) ∧
    (s.exploration_probability_threshold = 0 →
      call s size elapsed = explore { s with count := (s.count + 1) % U64 } size elapsed) ∧
    initialState.exploration_probability_threshold = 0 ∧
    (s.exploration_count ≠ num_explorations_before_optimize →
      (call s size elapsed).1.exploration_probability_threshold
        = s.exploration_probability_threshold) := by
  refine ⟨?_, ?_, ?_, rfl, ?_⟩
  · intro h
    rw [call]
    simp [h]
  · intro h
    rw [call]
    simp [h]
  · intro h
    rw [call]
    simp [h]
  · intro h
    by_cases hd : s.count % probability_distribution_buckets
        < s.exploration_probability_threshold
    · rw [call]
      simp [hd]
    · rw [call]
      simp only [if_neg hd]
      rw [explore_no_reopt { s with count := (s.count + 1) % U64 } size elapsed h]

/-- Claim C8: an exploit-mode call modifies nothing but the call counter:
no tracker field changes, neither do `selected_variant`,
`exploration_count` or the threshold; the call invokes the currently
selected variant. -/
theorem claim_C8_exploit_frame (s : MultipleVariantsWithStatistics) (size elapsed : ℕ)
    (h : s.count % probability_distribution_buckets < s.exploration_probability_threshold) :
    (call s size elapsed).1 = { s with count := (s.count + 1) % U64 } ∧
    (call s size elapsed).2 = s.selected_variant ∧
    (call s size elapsed).1.variants = s.variants ∧
    (call s size elapsed).1.selected_variant = s.selected_variant ∧
    (call s size elapsed).1.exploration_count = s.exploration_count ∧
    (call s size elapsed).1.exploration_probability_threshold
      = s.exploration_probability_threshold := by
  have hc : call s size elapsed = ({ s with count := (s.count + 1) % U64 }, s.selected_variant) := by
    rw [call]
    simp [h]
  rw [hc]
  exact ⟨rfl, rfl, rfl, rfl, rfl, rfl⟩

/-- The state used to exercise the exploit path: the initial registry with a
nonzero exploration probability threshold (the value 85 is what the first
reoptimization installs). -/
def exploitState : MultipleVariantsWithStatistics :=
  { initialState with exploration_probability_threshold := 85 }

/-- Witness for C8 at a concrete state: the threshold 85 makes call number 0
an exploit call, and the state changes only in `count`. -/
theorem claim_C8_exploit_frame_witness :
    exploitState.count % probability_distribution_buckets
        < exploitState.exploration_probability_threshold ∧
    (call exploitState 100000 7).1 = { exploitState with count := (exploitState.count + 1) % U64 } ∧
    (call exploitState 100000 7).2 = exploitState.selected_variant :=
  ⟨by decide,
   (claim_C8_exploit_frame exploitState 100000 7 (by decide)).1,
   (claim_C8_exploit_frame exploitState 100000 7 (by decide)).2.1⟩

/-- Witness for C3 at the initial state: the threshold is 0, so call number
0 explores. -/
theorem claim_C3_scheduler_decision_witness :
    initialState.exploration_probability_threshold = 0 ∧
    call initialState 100000 7
      = explore { initialState with count := (initialState.count + 1) % U64 } 100000 7 :=
  ⟨rfl, (claim_C3_scheduler_decision initialState 100000 7).2.2.1 rfl⟩

/-- Claim C10: `memcpy_selftuned` reads or writes no dispatcher state for
sizes below 30000 (the inline fixed paths), and invokes the adaptive
dispatcher `variants.call` exactly when `size ≥ 30000`. -/
theorem claim_C10_selftuned_dispatch (s : MultipleVariantsWithStatistics) (size elapsed : ℕ) :
    ((memcpy_selftuned s size elapsed).2 = true ↔ 30000 ≤ size) ∧
    (size < 30000 → memcpy_selftuned s size elapsed = (s, false)) ∧
    (30000 ≤ size → memcpy_selftuned s size elapsed = ((call s size elapsed).1, true)) := by
  rw [memcpy_selftuned]
  split_ifs with h1 h2 h3
  · refine ⟨by simp; omega, fun _ => rfl, fun h => absurd h (by omega)⟩
  · refine ⟨by simp; omega, fun _ => rfl, fun h => absurd h (by omega)⟩
  · refine ⟨by simp; omega, fun _ => rfl, fun h => absurd h (by omega)⟩
  · refine ⟨by simp; omega, fun h => absurd h (by omega), fun _ => rfl⟩

/-- Witness for C10 at concrete sizes: 5 stays on the inline path, 30000
reaches the dispatcher. -/
theorem claim_C10_selftuned_dispatch_witness :
    (5 : ℕ) < 30000 ∧ memcpy_selftuned initialState 5 7 = (initialState, false) ∧
    (30000 : ℕ) ≤ 30000 ∧
    memcpy_selftuned initialState 30000 7 = ((call initialState 30000 7).1, true) :=
  ⟨by norm_num,
   (claim_C10_selftuned_dispatch initialState 5 7).2.1 (by norm_num),
   le_refl _,
   (claim_C10_selftuned_dispatch initialState 30000 7).2.2 (le_refl _)⟩

/-- Claim C2 (amended): on an explore call with `e < size` the chosen
tracker receives `record`: `count + 1`, `bytes + size`, `time + e`, each mod
`2^64`; `count` and `bytes` strictly increase whenever the addition does not
wrap (note `size ≥ 1` follows from `e < size`), while `time` strictly
increases only when additionally `e > 0`; with `e ≥ size` `record` leaves
the tracker unchanged.  On a non-reoptimizing explore call no other tracker
is modified (on the 1-in-257 reoptimizing call every tracker is additionally
decayed afterwards). -/
theorem claim_C2_record_effect (v : VariantWithStatistics) (e sz : ℕ)
    (s : MultipleVariantsWithStatistics) :
    (e < sz → record v e sz =
      ⟨v.func, (v.time + e) % U64, (v.bytes + sz) % U64, (v.count + 1) % U64, v.kind⟩) ∧
    (e < sz → v.count + 1 < U64 → v.count < (record v e sz).count) ∧
    (e < sz → v.bytes + sz < U64 → v.bytes < (record v e sz).bytes) ∧
    (e < sz → 0 < e → v.time + e < U64 → v.time < (record v e sz).time) ∧
    (sz ≤ e → record v e sz = v) ∧
    (s.exploration_count ≠ num_explorations_before_optimize →
      (explore s sz e).1.variants (hashIndex s.exploration_count)
        = record (s.variants (hashIndex s.exploration_count)) e sz ∧
      ∀ j, j ≠ hashIndex s.exploration_count →
        (explore s sz e).1.variants j = s.variants j) := by
  refine ⟨?_, ?_, ?_, ?_, ?_, ?_⟩
  · intro h
    rw [record, if_pos h]
  · intro h hw
    rw [record, if_pos h]
    simp only
    rw [Nat.mod_eq_of_lt hw]
    omega
  · intro h hw
    rw [record, if_pos h]
    simp only
    rw [Nat.mod_eq_of_lt hw]
    omega
  · intro h he hw
    rw [record, if_pos h]
    simp only
    rw [Nat.mod_eq_of_lt hw]
    omega
  · intro h
    rw [record, if_neg (not_lt.mpr h)]
  · intro h
    rw [explore_no_reopt s sz e h]
    refine ⟨?_, ?_⟩
    · simp [postRecordVariants]
    · intro j hj
      simp [postRecordVariants, Function.update_noteq hj]

/-- Counterexample for C2 as stated: at the initial state, the explore call
with `elapsed = 0 < 5 = size` is accepted (`count` is incremented), yet
`time` is unchanged — the three fields are not all strictly increased. -/
theorem claim_C2_counterexample :
    (0 : ℕ) < 5 ∧
    ((explore initialState 5 0).1.variants (hashIndex initialState.exploration_count)).count
      = (initialState.variants (hashIndex initialState.exploration_count)).count + 1 ∧
    ((explore initialState 5 0).1.variants (hashIndex initialState.exploration_count)).time
      = (initialState.variants (hashIndex initialState.exploration_count)).time := by
  refine ⟨by norm_num, by decide, by decide⟩

/-- Witness for C2 at a concrete tracker: an accepted sample `(e, size) =
(2, 5)` on a seeded tracker strictly increases all three fields. -/
theorem claim_C2_record_effect_witness :
    (2 : ℕ) < 5 ∧
    record ⟨KernelFn.memcpy, 1, 1, 1, 1⟩ 2 5
      = ⟨KernelFn.memcpy, (1 + 2) % U64, (1 + 5) % U64, (1 + 1) % U64, 1⟩ ∧
    (1 : ℕ) < (record ⟨KernelFn.memcpy, 1, 1, 1, 1⟩ 2 5).count ∧
    (1 : ℕ) < (record ⟨KernelFn.memcpy, 1, 1, 1, 1⟩ 2 5).bytes ∧
    (1 : ℕ) < (record ⟨KernelFn.memcpy, 1, 1, 1, 1⟩ 2 5).time :=
  ⟨by norm_num,
   (claim_C2_record_effect ⟨KernelFn.memcpy, 1, 1, 1, 1⟩ 2 5 initialState).1 (by norm_num),
   (claim_C2_record_effect ⟨KernelFn.memcpy, 1, 1, 1, 1⟩ 2 5 initialState).2.1 (by norm_num)
     (by norm_num [U64]),
   (claim_C2_record_effect ⟨KernelFn.memcpy, 1, 1, 1, 1⟩ 2 5 initialState).2.2.1 (by norm_num)
     (by norm_num [U64]),
   (claim_C2_record_effect ⟨KernelFn.memcpy, 1, 1, 1, 1⟩ 2 5 initialState).2.2.2.1 (by norm_num)
     (by norm_num) (by norm_num [U64])⟩

/-- Claim C9 (amended): an accepted record establishes `count ≥ 1` and
`bytes ≥ 1`; all three lower bounds are preserved by `record` provided no
accumulator wraps mod `2^64`; and `smooth` (the decay run at every
reoptimization) unconditionally leaves every field ≥ 1 — so `time ≥ 1`
holds from the first decay onward, but not necessarily right after the
first accepted record (a sample with `e = 0` leaves `time = 0`). -/
theorem claim_C9_seeding_invariant (v : VariantWithStatistics) (e sz : ℕ) :
    (e < sz → v.count + 1 < U64 → v.bytes + sz < U64 →
      1 ≤ (record v e sz).count ∧ 1 ≤ (record v e sz).bytes) ∧
    (1 ≤ v.count → 1 ≤ v.bytes → 1 ≤ v.time →
      v.count + 1 < U64 → v.bytes + sz < U64 → v.time + e < U64 →
      1 ≤ (record v e sz).count ∧ 1 ≤ (record v e sz).bytes ∧ 1 ≤ (record v e sz).time) ∧
    (1 ≤ (smooth v).time ∧ 1 ≤ (smooth v).bytes ∧ 1 ≤ (smooth v).count) := by
  refine ⟨?_, ?_, Nat.le_add_right 1 _, Nat.le_add_right 1 _, Nat.le_add_right 1 _⟩
  · intro h hwc hwb
    rw [record, if_pos h]
    simp only
    rw [Nat.mod_eq_of_lt hwc, Nat.mod_eq_of_lt hwb]
    omega
  · intro hc hb ht hwc hwb hwt
    by_cases h : e < sz
    · rw [record, if_pos h]
      simp only
      rw [Nat.mod_eq_of_lt hwc, Nat.mod_eq_of_lt hwb, Nat.mod_eq_of_lt hwt]
      omega
    · rw [record, if_neg h]
      exact ⟨hc, hb, ht⟩

/-- Counterexample for C9 as stated: the very first accepted record
(`record(0, 1)` on a fresh tracker, accepted since `0 < 1`, setting
`count = 1`) leaves `time = 0`, so not all three fields are ≥ 1 after first
use. -/
theorem claim_C9_counterexample :
    (record ⟨KernelFn.memcpy, 0, 0, 0, 1⟩ 0 1).count = 1 ∧
    (record ⟨KernelFn.memcpy, 0, 0, 0, 1⟩ 0 1).time = 0 := by
  refine ⟨by decide, by decide⟩

/-- Witness for C9 at a concrete tracker: with no wraparound, an accepted
record on a seeded tracker keeps every field ≥ 1. -/
theorem claim_C9_seeding_invariant_witness :
    (2 : ℕ) < 5 ∧ (1 : ℕ) ≤ 1 ∧
    (1 ≤ (record ⟨KernelFn.memcpy, 1, 1, 1, 1⟩ 2 5).count ∧
     1 ≤ (record ⟨KernelFn.memcpy, 1, 1, 1, 1⟩ 2 5).bytes ∧
     1 ≤ (record ⟨KernelFn.memcpy, 1, 1, 1, 1⟩ 2 5).time) ∧
    (1 ≤ (smooth ⟨KernelFn.memcpy, 0, 0, 0, 1⟩).time ∧
     1 ≤ (smooth ⟨KernelFn.memcpy, 0, 0, 0, 1⟩).bytes ∧
     1 ≤ (smooth ⟨KernelFn.memcpy, 0, 0, 0, 1⟩).count) :=
  ⟨by norm_num, le_refl _,
   (claim_C9_seeding_invariant ⟨KernelFn.memcpy, 1, 1, 1, 1⟩ 2 5).2.1 (le_refl _) (le_refl _)
     (le_refl _) (by norm_num [U64]) (by norm_num [U64]) (by norm_num [U64]),
   (claim_C9_seeding_invariant ⟨KernelFn.memcpy, 0, 0, 0, 1⟩ 0 1).2.2⟩

/-- Claim C6: one decay step maps `(t, b, c)` to
`(1 + t/2, 1 + b/2, 1 + c/2)` with integer floor division, every resulting
field is ≥ 1, and a reoptimization applies this map to every tracker. -/
theorem claim_C6_decay (v : VariantWithStatistics) (s : MultipleVariantsWithStatistics) :
    smooth v = ⟨v.func, 1 + v.time / 2, 1 + v.bytes / 2, 1 + v.count / 2, v.kind⟩ ∧
    (1 ≤ (smooth v).time ∧ 1 ≤ (smooth v).bytes ∧ 1 ≤ (smooth v).count) ∧
    (∀ i, (reoptimize s).variants i = smooth (s.variants i)) := by
  refine ⟨rfl, ⟨Nat.le_add_right 1 _, Nat.le_add_right 1 _, Nat.le_add_right 1 _⟩, ?_⟩
  intro i
  simp [reoptimize_variants]

/-- Claim C7: the threshold update `t ↦ min(255, ⌊256·(1 − (1 − t/256)/1.5)⌋)`
never exceeds 255 (and, over ℕ, is never negative), is at least `t` for
every reachable threshold `t ≤ 255` (so the threshold is non-decreasing
across successive reoptimizations), starts at 0, and is exactly the update
the reoptimizer performs. -/
theorem claim_C7_threshold_monotone (t : ℕ) (s : MultipleVariantsWithStatistics) :
    thresholdUpdate t ≤ 255 ∧
    (t ≤ 255 → t ≤ thresholdUpdate t) ∧
    (reoptimize s).exploration_probability_threshold
      = thresholdUpdate s.exploration_probability_threshold ∧
    initialState.exploration_probability_threshold = 0 := by
  have hform : thresholdUpdate t = min 255 (Int.toNat ⌊((256 : ℚ) + 2 * t) / 3⌋) := by
    rw [thresholdUpdate]
    simp only [probability_distribution_buckets]
    norm_num
    congr 1
    congr 1
    ring_nf
  refine ⟨hform ▸ min_le_left _ _, ?_, rfl, rfl⟩
  intro ht
  rw [hform]
  have h3 : (t : ℚ) ≤ ((256 : ℚ) + 2 * t) / 3 := by
    rw [le_div_iff₀ (by norm_num : (0 : ℚ) < 3)]
    have : (t : ℚ) ≤ 256 := by exact_mod_cast Nat.le_of_lt_succ (by omega)
    nlinarith
  have hfl : (t : ℤ) ≤ ⌊((256 : ℚ) + 2 * t) / 3⌋ := by
    apply Int.le_floor.mpr
    push_cast
    exact h3
  refine le_min ht ?_
  omega

/-- Witness for C7 at the initial threshold 0: the first reoptimization
raises it (to 85), and it stays within bounds. -/
theorem claim_C7_threshold_monotone_witness :
    (0 : ℕ) ≤ 255 ∧ (0 : ℕ) ≤ thresholdUpdate 0 ∧ thresholdUpdate 0 ≤ 255 :=
  ⟨by norm_num,
   (claim_C7_threshold_monotone 0 initialState).2.1 (by norm_num),
   (claim_C7_threshold_monotone 0 initialState).1⟩

/-- Claim C4 (amended): the registry trackers are zero-initialized, so
immediately after registration `score()` is *not* defined (its mean is a
0/0 division); the ≥ 1 seeding of every field is established by the decay
(`smooth`) that runs at every reoptimization, after which `score()` is
defined for every tracker. -/
theorem claim_C4_score_seeding (s : MultipleVariantsWithStatistics) :
    (∀ i, (initialState.variants i).time = 0 ∧ (initialState.variants i).bytes = 0 ∧
      (initialState.variants i).count = 0 ∧ ¬ scoreDefined (initialState.variants i)) ∧
    (∀ v : VariantWithStatistics, scoreDefined (smooth v)) ∧
    (∀ i, scoreDefined ((reoptimize s).variants i)) := by
  refine ⟨by decide, ?_, ?_⟩
  · intro v
    refine ⟨?_, ?_⟩ <;> simp [smooth]
  · intro i
    have h : (reoptimize s).variants i = smooth (s.variants i) := by
      simp [reoptimize_variants]
    rw [h]
    refine ⟨?_, ?_⟩ <;> simp [smooth]

/-- Counterexample for C4 as stated: tracker 0 right after registration has
`bytes = count = 0`, so no minimum-count seeding was enforced at
initialization and `score()` divides by zero there. -/
theorem claim_C4_counterexample :
    (initialState.variants 0).bytes = 0 ∧ (initialState.variants 0).count = 0 ∧
    ¬ scoreDefined (initialState.variants 0) := by
  refine ⟨by decide, by decide, by decide⟩

/-- Witness for C4 at tracker 0: undefined at registration, defined after
the first decay, defined after a reoptimization. -/
theorem claim_C4_score_seeding_witness :
    ¬ scoreDefined (initialState.variants 0) ∧
    scoreDefined (smooth (initialState.variants 0)) ∧
    scoreDefined ((reoptimize initialState).variants 0) :=
  ⟨((claim_C4_score_seeding initialState).1 0).2.2.2,
   (claim_C4_score_seeding initialState).2.1 (initialState.variants 0),
   (claim_C4_score_seeding initialState).2.2 0⟩

/-- Following the spec's words for C5 ("a fast integer hash of the *new*
`exploration_count` value"): the cell index the claim predicts, hashing the
post-increment counter value. -/
def specIndexOfNewCount (s : MultipleVariantsWithStatistics) : Fin 16 :=
  hashIndex ((s.exploration_count + 1) % U64)

/-- Claim C5 (amended): the explore kernel index is obtained by applying
the fixed hash (multiply by `0xff51afd7ed558ccd` mod `2^64`, xor with the
right-shift by 33) to the *old* (pre-increment) `exploration_count` value,
reduced mod 16; the invoked kernel and the recorded tracker are both at
that index. -/
theorem claim_C5_hash_index (s : MultipleVariantsWithStatistics) (sz e : ℕ) (ec : ℕ) :
    (explore s sz e).2 = (s.variants (hashIndex s.exploration_count)).func ∧
    (hashIndex ec).val
      = (((ec * 0xff51afd7ed558ccd) % 2 ^ 64)
          ^^^ (((ec * 0xff51afd7ed558ccd) % 2 ^ 64) >>> 33)) % 16 ∧
    (s.exploration_count ≠ num_explorations_before_optimize →
      (explore s sz e).1.variants (hashIndex s.exploration_count)
        = record (s.variants (hashIndex s.exploration_count)) e sz) := by
  refine ⟨rfl, rfl, ?_⟩
  intro h
  rw [explore_no_reopt s sz e h]
  simp [postRecordVariants]

/-- Counterexample for C5 as stated: at the initial state
(`exploration_count = 0`) the code hashes the old value 0 and invokes cell
0 (`memcpy`), while hashing the new value 1 as the claim states would give
cell 6 (`__memcpy_ssse3`). -/
theorem claim_C5_counterexample :
    (explore initialState 5 0).2 = KernelFn.memcpy ∧
    (initialState.variants (specIndexOfNewCount initialState)).func
      = KernelFn.glibc_memcpy_ssse3 ∧
    (explore initialState 5 0).2
      ≠ (initialState.variants (specIndexOfNewCount initialState)).func := by
  refine ⟨by decide, by decide, by decide⟩

/-- Witness for C5 at the initial state: the recorded tracker is the one at
the hash of the old counter value. -/
theorem claim_C5_hash_index_witness :
    initialState.exploration_count ≠ num_explorations_before_optimize ∧
    (explore initialState 5 0).1.variants (hashIndex initialState.exploration_count)
      = record (initialState.variants (hashIndex initialState.exploration_count)) 0 5 :=
  ⟨by decide, (claim_C5_hash_index initialState 5 0 1).2.2 (by decide)⟩

/-- Claim C1: in a sequential execution, once the exploration counter has
accumulated 256 explorations, the next explore call (the one reading the
counter value `num_explorations_before_optimize`) fires the reoptimization
exactly once: it resets `exploration_count` to 0 and stores into
`selected_variant` the `func` of the registry entry whose score is minimum
over all 16 trackers at that instant (the post-record, pre-decay trackers,
ties broken by the first occurrence in registry order), while every explore
call reading a different counter value leaves `selected_variant` and the
threshold untouched.  The two score hypotheses state the claim's
presuppositions: each tracker's score is an actual real number (no NaN/+inf
from an empty tracker) and the minimum beats the loop's `1e9`
initialization (always true for recorded trackers, whose mean is < 1). -/
theorem claim_C1_reoptimization (s : MultipleVariantsWithStatistics) (size elapsed : ℕ)
    (h : s.exploration_count = num_explorations_before_optimize)
    (hdef : ∀ i, scoreDefined (postRecordVariants s size elapsed i))
    (hlt : ∃ i, scoreVal (postRecordVariants s size elapsed i) < (10 : ℝ) ^ 9) :
    (explore s size elapsed).1.exploration_count = 0 ∧
    (explore s size elapsed).1.selected_variant
      = (postRecordVariants s size elapsed
          (bestIndex (postRecordVariants s size elapsed))).func ∧
    (∀ j, scoreVal (postRecordVariants s size elapsed
            (bestIndex (postRecordVariants s size elapsed)))
        ≤ scoreVal (postRecordVariants s size elapsed j)) ∧
    (∀ j, j < bestIndex (postRecordVariants s size elapsed) →
      scoreVal (postRecordVariants s size elapsed
          (bestIndex (postRecordVariants s size elapsed)))
        < scoreVal (postRecordVariants s size elapsed j)) ∧
    (∀ (s' : MultipleVariantsWithStatistics) (size' elapsed' : ℕ),
      s'.exploration_count ≠ num_explorations_before_optimize →
        (explore s' size' elapsed').1.selected_variant = s'.selected_variant ∧
        (explore s' size' elapsed').1.exploration_probability_threshold
          = s'.exploration_probability_threshold) := by
  have h2 := explore_reopt s size elapsed h
  have hbspec := bestIndex_spec (postRecordVariants s size elapsed) hdef hlt
  refine ⟨?_, ?_, hbspec.1, hbspec.2, ?_⟩
  · rw [h2]
    rfl
  · rw [h2]
    show ((optimizeLoop (postRecordVariants s size elapsed)).1
        (optimizeLoop (postRecordVariants s size elapsed)).2.1).func = _
    rw [optimizeLoop_fst]
    rfl
  · intro s' size' elapsed' h'
    rw [explore_no_reopt s' size' elapsed' h']
    exact ⟨rfl, rfl⟩

/-- A concrete pre-reoptimization state: the exploration counter has
accumulated 256 explorations, every tracker is seeded, and tracker 3 has
the (strictly) best statistics. -/
def reoptState : MultipleVariantsWithStatistics :=
  { selected_variant := KernelFn.memcpy
    variants := fun i =>
      if i = (3 : Fin 16) then ⟨KernelFn.memcpy_fast_avx, 1, 1, 1, 11⟩
      else ⟨KernelFn.memcpy, 4, 1, 1, 1⟩
    count := 0
    exploration_count := 256
    exploration_probability_threshold := 0 }

/-- Witness for C1 at `reoptState` (the explore sample `elapsed = 7 ≥ 5 =
size` is rejected, so the scanned trackers are exactly those of
`reoptState`): the reoptimization fires, resets the counter and selects the
minimum-score entry. -/
theorem claim_C1_reoptimization_witness :
    reoptState.exploration_count = num_explorations_before_optimize ∧
    (∀ i, scoreDefined (postRecordVariants reoptState 5 7 i)) ∧
    (∃ i, scoreVal (postRecordVariants reoptState 5 7 i) < (10 : ℝ) ^ 9) ∧
    ((explore reoptState 5 7).1.exploration_count = 0 ∧
      (explore reoptState 5 7).1.selected_variant
        = (postRecordVariants reoptState 5 7 (bestIndex (postRecordVariants reoptState 5 7))).func) := by
  have hex : ∃ i, scoreVal (postRecordVariants reoptState 5 7 i) < (10 : ℝ) ^ 9 := by
    refine ⟨3, ?_⟩
    have hpr : postRecordVariants reoptState 5 7 (3 : Fin 16)
        = ⟨KernelFn.memcpy_fast_avx, 1, 1, 1, 11⟩ := by decide
    rw [hpr, scoreVal]
    norm_num
  have happ := claim_C1_reoptimization reoptState 5 7 (by decide) (by decide) hex
  exact ⟨by decide, by decide, hex, happ.1, happ.2.1⟩

end MemcpyBench
